import Mathlib

/-!
Verification of the xact blob-transfer protocol (sender, receiver, transport
wrapper and integer framing helpers) against its natural-language
specification.  The Rust source in `src/lib.rs`, `src/sender.rs` and
`src/receiver.rs` is shallowly embedded below: byte strings become `List Nat`,
the per-sender blob table becomes an association list with first-match lookup
(the observable behaviour of the `HashMap`), wall-clock instants become `Nat`
values passed explicitly, and the incremental SHA-256 digest plus hex encoder
-- declared out of scope by the specification -- are idealized as the injective
digest carrying exactly the byte stream fed so far, so that digest comparison
coincides with fed-stream equality.  Rust panics (assertion failures and
out-of-range slice indexing) are modelled as explicit `panic` outcomes or as
`Option.none` results.
-/

namespace Xact

/-- Byte strings on the wire and in buffers: each element is one byte value. -/
abbrev Bytes := List Nat

/-- The bytes of an ASCII string literal, used for the protocol verbs. -/
def strBytes (s : String) : Bytes := s.data.map Char.toNat

/-- Error kinds of `XactError` in `src/lib.rs` (the wrapped zmq error payload
is irrelevant to the claims and dropped). -/
inductive ErrKind where
  | ZMQ_ERROR
  | TIMEOUT
  | INVALID_RESPONSE
  | NOGO
deriving DecidableEq

/-- The `XactError` struct from `src/lib.rs`: an error kind plus a message
(the derived `full_desc` field is a pure function of these two). -/
structure XactError where
  kind : ErrKind
  msg : String
deriving DecidableEq

/-- Constructor `XactError::new` from `src/lib.rs`. -/
def XactError.new (kind : ErrKind) (msg : String) : XactError := ⟨kind, msg⟩

/-- Rust `usize` is 64 bits wide on the supported targets; `parse::<usize>()`
fails once the accumulated value would exceed this bound. -/
def USIZE_MAX : Nat := 2 ^ 64 - 1

/-- Decimal-digit accumulation loop of `str::parse::<usize>` (i.e.
`from_str_radix` base 10): consume ASCII digits left to right, multiplying the
accumulator by ten and adding the digit, failing on a non-digit byte or on
overflow past `USIZE_MAX`. -/
def parseDigitsAcc : Bytes → Nat → Option Nat
  | [], acc => some acc
  | b :: rest, acc =>
    if 48 ≤ b ∧ b ≤ 57 then
      if acc * 10 + (b - 48) ≤ USIZE_MAX then
        parseDigitsAcc rest (acc * 10 + (b - 48))
      else none
    else none

/-- Rust `str::parse::<usize>`: an optional leading `+` sign followed by at
least one decimal digit, rejecting the empty string.  Multi-byte UTF-8
characters begin with a byte at or above `0x80`, which is not a digit, so
parsing directly over the bytes agrees with parsing over the characters. -/
def parseUsize (bs : Bytes) : Option Nat :=
  match bs with
  | [] => none
  | b :: rest =>
    if b = 43 then
      match rest with
      | [] => none
      | _ :: _ => parseDigitsAcc rest 0
    else parseDigitsAcc bs 0

/-- UTF-8 validity of a byte string, as checked by `str::from_utf8`, with an
explicit fuel argument (the list length) so that the definition is structural
and computable by the kernel.  The ranges are those of the UTF-8 standard:
one-byte sequences up to `0x7F`, two-byte leaders `0xC2`-`0xDF`, three-byte
leaders `0xE0`-`0xEF` with their surrogate and overlong exclusions, and
four-byte leaders `0xF0`-`0xF4` with their exclusions; continuation bytes lie
in `0x80`-`0xBF`. -/
def validUtf8Aux : Nat → Bytes → Bool
  | 0, l => l.isEmpty
  | _ + 1, [] => true
  | fuel + 1, b :: rest =>
    if b < 0x80 then validUtf8Aux fuel rest
    else if 0xC2 ≤ b ∧ b ≤ 0xDF then
      match rest with
      | c1 :: r => decide (0x80 ≤ c1 ∧ c1 ≤ 0xBF) && validUtf8Aux fuel r
      | [] => false
    else if b = 0xE0 then
      match rest with
      | c1 :: c2 :: r =>
        decide (0xA0 ≤ c1 ∧ c1 ≤ 0xBF) && decide (0x80 ≤ c2 ∧ c2 ≤ 0xBF) &&
          validUtf8Aux fuel r
      | _ => false
    else if (0xE1 ≤ b ∧ b ≤ 0xEC) ∨ (0xEE ≤ b ∧ b ≤ 0xEF) then
      match rest with
      | c1 :: c2 :: r =>
        decide (0x80 ≤ c1 ∧ c1 ≤ 0xBF) && decide (0x80 ≤ c2 ∧ c2 ≤ 0xBF) &&
          validUtf8Aux fuel r
      | _ => false
    else if b = 0xED then
      match rest with
      | c1 :: c2 :: r =>
        decide (0x80 ≤ c1 ∧ c1 ≤ 0x9F) && decide (0x80 ≤ c2 ∧ c2 ≤ 0xBF) &&
          validUtf8Aux fuel r
      | _ => false
    else if b = 0xF0 then
      match rest with
      | c1 :: c2 :: c3 :: r =>
        decide (0x90 ≤ c1 ∧ c1 ≤ 0xBF) && decide (0x80 ≤ c2 ∧ c2 ≤ 0xBF) &&
          decide (0x80 ≤ c3 ∧ c3 ≤ 0xBF) && validUtf8Aux fuel r
      | _ => false
    else if 0xF1 ≤ b ∧ b ≤ 0xF3 then
      match rest with
      | c1 :: c2 :: c3 :: r =>
        decide (0x80 ≤ c1 ∧ c1 ≤ 0xBF) && decide (0x80 ≤ c2 ∧ c2 ≤ 0xBF) &&
          decide (0x80 ≤ c3 ∧ c3 ≤ 0xBF) && validUtf8Aux fuel r
      | _ => false
    else if b = 0xF4 then
      match rest with
      | c1 :: c2 :: c3 :: r =>
        decide (0x80 ≤ c1 ∧ c1 ≤ 0x8F) && decide (0x80 ≤ c2 ∧ c2 ≤ 0xBF) &&
          decide (0x80 ≤ c3 ∧ c3 ≤ 0xBF) && validUtf8Aux fuel r
      | _ => false
    else false

/-- UTF-8 validity of a byte string (`str::from_utf8` succeeding). -/
def validUtf8 (bs : Bytes) : Bool := validUtf8Aux bs.length bs

/-- `bytes_to_int` from `src/lib.rs`: view the bytes as UTF-8, then parse as
`usize`; each failure is an `INVALID_RESPONSE` error with the message from the
source. -/
def bytes_to_int (bs : Bytes) : Except XactError Nat :=
  if validUtf8 bs then
    match parseUsize bs with
    | some n => .ok n
    | none => .error (XactError.new .INVALID_RESPONSE "Unable to parse string as integer")
  else .error (XactError.new .INVALID_RESPONSE "Unable to parse bytes as utf-8")

/-- Big-endian decimal digit bytes of a positive number, with fuel (any fuel
at least the digit count gives the same answer; `n` itself always suffices).
This is the output of Rust `format!` for an unsigned integer. -/
def natToDecAux : Nat → Nat → Bytes
  | 0, _ => []
  | fuel + 1, n => if n = 0 then [] else natToDecAux fuel (n / 10) ++ [n % 10 + 48]

/-- `int_to_bytes` from `src/lib.rs`: the ASCII decimal representation
(`format!` renders zero as the single byte `"0"`). -/
def int_to_bytes (n : Nat) : Bytes := if n = 0 then [48] else natToDecAux n n

/-! ### Receiver data model (`src/receiver.rs`) -/

/-- `BLOB_TTL_SECONDS` from `src/receiver.rs`. -/
def BLOB_TTL_SECONDS : Nat := 10

/-- `DEFAULT_CHUNK_SIZE` from `src/receiver.rs` (`1e7 as usize`). -/
def DEFAULT_CHUNK_SIZE : Nat := 10000000

/-- `MAX_SIMUL_CHUNKS` from `src/receiver.rs`. -/
def MAX_SIMUL_CHUNKS : Nat := 10

/-- `MSG_PADDING` from `src/receiver.rs`. -/
def MSG_PADDING : Nat := 100

/-- Idealization of the incremental SHA-256 state.  The hash primitive and
the hex encoder are declared out of scope by the specification, so the digest
is modelled as the injective function carrying exactly the bytes fed so far:
two digests compare equal exactly when the fed byte streams are equal, which
is the intended reading of hash agreement. -/
structure Sha256 where
  fed : Bytes
deriving DecidableEq

/-- `Sha256::new()`: nothing fed yet. -/
def Sha256.new : Sha256 := ⟨[]⟩

/-- `hash.input(bytes)`: append the bytes to the fed stream. -/
def Sha256.inputBytes (h : Sha256) (bs : Bytes) : Sha256 := ⟨h.fed ++ bs⟩

/-- `hash.result_bytes().to_hex()`: the idealized digest rendered for the
wire.  Under the injective-digest idealization this is the fed stream itself;
two renderings are equal exactly when the fed streams are. -/
def Sha256.result_hex (h : Sha256) : Bytes := h.fed

/-- The `Blob` struct from `src/receiver.rs`: receiver-side per-sender
session state.  `time_to_die` is a monotonic instant, modelled in seconds. -/
structure Blob where
  id : Bytes
  array : Bytes
  index : Nat
  hash : Sha256
  time_to_die : Nat
deriving DecidableEq

/-- `Blob::new(id, array_size)` from `src/receiver.rs`: note that the source
pre-allocates the full array as `vec![0; array_size]` (a buffer of
`array_size` zero bytes) while the hash state is fresh.  `now` is the value
of `Instant::now()` at the call. -/
def Blob.new (id : Bytes) (array_size : Nat) (now : Nat) : Blob :=
  { id := id
    array := List.replicate array_size 0
    index := 0
    hash := Sha256.new
    time_to_die := now + BLOB_TTL_SECONDS }

/-- `Blob::is_alive` from `src/receiver.rs`. -/
def Blob.is_alive (b : Blob) (now : Nat) : Bool := now < b.time_to_die

/-- `Blob::update_ttl` from `src/receiver.rs`. -/
def Blob.update_ttl (b : Blob) (now : Nat) : Blob :=
  { b with time_to_die := now + BLOB_TTL_SECONDS }

/-- The receiver blob table `HashMap<Vec<u8>, Blob>` keyed by sender
identity, modelled as an association list with first-match lookup. -/
abbrev BlobTable := List (Bytes × Blob)

/-- `HashMap::get` on the modelled table. -/
def tlookup (k : Bytes) : BlobTable → Option Blob
  | [] => none
  | (k1, v) :: rest => if k1 = k then some v else tlookup k rest

/-- `HashMap::insert` on the modelled table: replaces an existing binding. -/
def tinsert (k : Bytes) (v : Blob) : BlobTable → BlobTable
  | [] => [(k, v)]
  | (k1, v1) :: rest => if k1 = k then (k, v) :: rest else (k1, v1) :: tinsert k v rest

/-- `HashMap::remove` on the modelled table. -/
def tremove (k : Bytes) : BlobTable → BlobTable
  | [] => []
  | (k1, v1) :: rest => if k1 = k then tremove k rest else (k1, v1) :: tremove k rest

/-- Observable actions of the receiver loop: messages pushed onto the ROUTER
socket (first frame is the routing identity), `on_info` callback invocations,
and `on_complete` callback invocations.  The source interpolates wall-clock
timings and raw identity bytes into some `on_info` texts; those texts are
represented here by fixed tags since no claim depends on them. -/
inductive Event where
  | sent (frames : List Bytes)
  | info (msg : String)
  | complete (id : Bytes) (array : Bytes)
deriving DecidableEq

/-- The mutable receiver state: the configured chunk size and the blob
table.  The zmq context and socket handles carry no protocol state. -/
structure BlobReceiver where
  chunk_size : Nat
  blobs : BlobTable
deriving DecidableEq

/-- `BlobReceiver::abort_transaction`. -/
def abort_transaction (st : BlobReceiver) (sender_id : Bytes) : BlobReceiver :=
  { st with blobs := tremove sender_id st.blobs }

/-- `BlobReceiver::request_chunks`: send `num_chunks` TOKEN messages, each
followed by an `on_info` call (sends are modelled as succeeding; on a send
failure the source merely returns early). -/
def request_chunks (sender_id : Bytes) (num_chunks : Nat) : List Event :=
  (List.replicate num_chunks
    [Event.sent [sender_id, [], strBytes "TOKEN"], Event.info "Requested chunk."]).flatten

/-- `BlobReceiver::do_ping`. -/
def do_ping (st : BlobReceiver) (sender_id : Bytes) : BlobReceiver × List Event :=
  (st, [.sent [sender_id, [], strBytes "PONG"]])

/-- `BlobReceiver::do_start`, given the two frames read from the socket
(`blob_id` and the ASCII data size).  On a parse failure the transaction is
aborted with no reply; if `on_ready` declines, a NOGO is sent and no state is
created; otherwise a fresh blob is inserted, GOGO is sent carrying the ASCII
decimal chunk size, and `MAX_SIMUL_CHUNKS` TOKEN messages are pre-granted. -/
def do_start (st : BlobReceiver) (now : Nat) (on_ready : Nat → Bool)
    (sender_id blob_id data_size_bytes : Bytes) : BlobReceiver × List Event :=
  match bytes_to_int data_size_bytes with
  | .error _ => (abort_transaction st sender_id, [])
  | .ok data_size =>
    if !on_ready data_size then
      (st, [.sent [sender_id, [], strBytes "NOGO", strBytes "0"],
            .info "Not ready. NOGO sent."])
    else
      let blob := Blob.new blob_id data_size now
      ({ st with blobs := tinsert sender_id blob st.blobs },
       .info "Created new blob." ::
       .sent [sender_id, [], strBytes "GOGO", int_to_bytes st.chunk_size] ::
       request_chunks sender_id MAX_SIMUL_CHUNKS)

/-- Overwrite `arr` at offset `i` with `data` (the effect of
`sock.recv_into` on the borrowed sub-slice when `i + data.length` is within
bounds). -/
def writeBytes (arr : Bytes) (i : Nat) (data : Bytes) : Bytes :=
  arr.take i ++ data ++ arr.drop (i + data.length)

/-- `BlobReceiver::do_chunk`.  `pending` is the queue of message frames not
yet read from the socket; the source checks the table before reading the
payload frame, so in the unknown-sender branch the payload frame is left on
the queue.  In the known-sender branch the source first borrows
`blob.array[blob.index .. blob.index + chunk_size]`, which panics when the
upper bound exceeds the array length -- modelled as `none`; `none` also
models blocking forever when no payload frame ever arrives.  `recv_into`
copies at most the borrowed length, so the payload is truncated to
`chunk_size`, and the hash is fed the whole `chunk_size`-byte window of the
array regardless of the payload length.

`chunkUpdatedBlob` is the body of the known-sender branch: overwrite the
array window at `index`, feed the hash the full window, advance `index` by
the chunk size, and refresh the TTL. -/
def chunkUpdatedBlob (blob : Blob) (cs now : Nat) (payload : Bytes) : Blob :=
  let arr1 := writeBytes blob.array blob.index (payload.take cs)
  let window := (arr1.drop blob.index).take cs
  let blob1 : Blob :=
    { blob with
      array := arr1
      hash := blob.hash.inputBytes window
      index := blob.index + cs }
  blob1.update_ttl now

def do_chunk (st : BlobReceiver) (now : Nat) (sender_id : Bytes)
    (pending : List Bytes) : Option (BlobReceiver × List Event × List Bytes) :=
  match tlookup sender_id st.blobs with
  | none => some (st, [], pending)
  | some blob =>
    if blob.index + st.chunk_size ≤ blob.array.length then
      match pending with
      | [] => none
      | payload :: rest =>
        some ({ st with
                blobs := tinsert sender_id
                  (chunkUpdatedBlob blob st.chunk_size now payload) st.blobs },
              [.info "Received chunk data.", .info "Appended chunk to blob."] ++
                request_chunks sender_id 1,
              rest)
    else none

/-- `BlobReceiver::do_end`.  `hash_recv` is the result of reading the hex
hash frame (`none` models a receive error, upon which the source aborts the
transaction).  The blob is removed from the table in every branch; on a
digest match OK is sent and `on_complete` is invoked with the blob array. -/
def do_end (st : BlobReceiver) (sender_id : Bytes) (hash_recv : Option Bytes) :
    BlobReceiver × List Event :=
  match hash_recv with
  | none => (abort_transaction st sender_id, [])
  | some hash_bytes =>
    let st1 : BlobReceiver := { st with blobs := tremove sender_id st.blobs }
    match tlookup sender_id st.blobs with
    | none => (st1, [.info "END with invalid sender_id. Ignoring."])
    | some blob =>
      if hash_bytes ≠ blob.hash.result_hex then
        (abort_transaction st1 sender_id,
         [.info "Checking hash.", .info "Checksum wrong. Sending FAIL.",
          .sent [sender_id, [], strBytes "FAIL", strBytes "Hash mismatch"]])
      else
        (st1,
         [.info "Checking hash.",
          .sent [sender_id, [], strBytes "OK", strBytes "Great success"],
          .info "Sent OK.", .info "Queueing completion action.",
          .complete sender_id blob.array])

/-- `BlobReceiver::prune_dead_blobs`: drop every table entry whose TTL has
expired at `now`. -/
def prune_dead_blobs (st : BlobReceiver) (now : Nat) : BlobReceiver :=
  { st with blobs := st.blobs.filter (fun kv => kv.2.is_alive now) }

/-! ### Transport wrapper (`TimedZMQTransaction` in `src/sender.rs`)

Instants and durations are modelled in nanoseconds so that the millisecond
conversion of `get_remaining_ms` (seconds times one thousand plus sub-second
nanoseconds divided by one million) is represented exactly. -/

/-- zmq error values reaching the claims. -/
inductive ZmqError where
  | EBUSY
deriving DecidableEq

/-- The deadline state of `TimedZMQTransaction`: the absolute instant
`time_to_die`, in nanoseconds. -/
structure TimedZMQTransaction where
  time_to_die : Nat
deriving DecidableEq

/-- `TimedZMQTransaction::get_remaining_duration`: zero once the deadline has
passed, otherwise the lesser of the optional timeout and the remaining time
(or the remaining time alone when no timeout is given). -/
def get_remaining_duration (t : TimedZMQTransaction) (timeout : Option Nat)
    (now : Nat) : Nat :=
  if t.time_to_die ≤ now then 0
  else
    match timeout with
    | some duration => min duration (t.time_to_die - now)
    | none => t.time_to_die - now

/-- The millisecond rendering in `get_remaining_ms`: whole seconds times one
thousand plus the sub-second nanoseconds divided by one million. -/
def duration_to_ms (nanos : Nat) : Nat :=
  (nanos / 1000000000) * 1000 + (nanos % 1000000000) / 1000000

/-- `TimedZMQTransaction::get_remaining_ms`: the wait bound, in milliseconds,
that `poll` hands to `zmq::poll`. -/
def get_remaining_ms (t : TimedZMQTransaction) (timeout : Option Nat)
    (now : Nat) : Nat :=
  duration_to_ms (get_remaining_duration t timeout now)

/-- `TimedZMQTransaction::send_multipart`, reduced to its gate: `poll` for
writability is called first, and a zero poll count fails with `EBUSY` before
anything is emitted; otherwise every part is emitted.  `poll_count` is the
value returned by the underlying `zmq::poll`. -/
def send_multipart (parts : List Bytes) (poll_count : Nat) :
    Except ZmqError (List Bytes) :=
  if poll_count = 0 then .error .EBUSY else .ok parts

/-- `TimedZMQTransaction::recv_multipart`, reduced to its gate: `poll` for
readability first, failing with `EBUSY` on a zero count, otherwise draining
the queued parts. -/
def recv_multipart (queued : List Bytes) (poll_count : Nat) :
    Except ZmqError (List Bytes) :=
  if poll_count = 0 then .error .EBUSY else .ok queued

/-! ### Sender (`send_binary_blob` in `src/sender.rs`)

The reply-validation steps of `send_binary_blob` are embedded as functions of
the received multipart reply.  A Rust `assert!` failure is a panic, not a
returned error, and is modelled by the distinguished `panic` outcome. -/

/-- Outcome of a sender step: a value, an error value returned to the caller,
or a panic raised by a failed `assert!`. -/
inductive SenderResult (α : Type) where
  | ok : α → SenderResult α
  | err : XactError → SenderResult α
  | panic : SenderResult α
deriving DecidableEq

/-- Validation of the PING reply in `send_binary_blob`:
`assert!(parts.len() == 2)` then `assert!(parts[1] == b"PONG")` -- both are
assertions, so a shape mismatch panics. -/
def handle_ping_response (parts : List Bytes) : SenderResult Unit :=
  if parts.length = 2 then
    if parts.getD 1 [] = strBytes "PONG" then .ok () else .panic
  else .panic

/-- Validation of the START reply: `assert!(parts.len() == 3)`, then dispatch
on the second frame -- NOGO yields the dedicated NOGO error, GOGO yields the
third frame (the chunk size bytes), anything else is INVALID_RESPONSE. -/
def handle_start_response (parts : List Bytes) : SenderResult Bytes :=
  if parts.length = 3 then
    if parts.getD 1 [] = strBytes "NOGO" then
      .err (XactError.new .NOGO "Endpoint was not ready.")
    else if parts.getD 1 [] = strBytes "GOGO" then .ok (parts.getD 2 [])
    else .err (XactError.new .INVALID_RESPONSE "Invalid chunk size")
  else .panic

/-- Validation of a chunk request: `assert!(parts.len() >= 2)`, then the
second frame must be TOKEN, anything else is INVALID_RESPONSE. -/
def handle_token (parts : List Bytes) : SenderResult Unit :=
  if 2 ≤ parts.length then
    if parts.getD 1 [] = strBytes "TOKEN" then .ok ()
    else .err (XactError.new .INVALID_RESPONSE "Invalid chunk request")
  else .panic

/-- The final reply loop of `send_binary_blob`: read replies, skipping TOKEN
frames, until OK (success) or anything else (INVALID_RESPONSE); a reply of
fewer than two frames trips the `assert!`.  `none` models blocking forever on
an exhausted reply stream. -/
def await_ok : List (List Bytes) → Option (SenderResult Unit)
  | [] => none
  | msg :: rest =>
    if 2 ≤ msg.length then
      if msg.getD 1 [] = strBytes "TOKEN" then await_ok rest
      else if msg.getD 1 [] = strBytes "OK" then some (.ok ())
      else some (.err (XactError.new .INVALID_RESPONSE "Invalid end response"))
    else some .panic

/-- `data.chunks(cs)` from the sender streaming loop, with fuel (the list
length always suffices) so the definition is structural: consecutive pieces
of size `cs`, the final piece possibly shorter, and no pieces at all for
empty data.  Rust panics on `chunks(0)`; the zero case is guarded separately
at the call site. -/
def chunksOfAux : Nat → Nat → Bytes → List Bytes
  | 0, _, _ => []
  | _ + 1, _, [] => []
  | fuel + 1, cs, l => l.take cs :: chunksOfAux fuel cs (l.drop cs)

/-- `data.chunks(cs)` for positive `cs`. -/
def chunksOf (cs : Nat) (l : Bytes) : List Bytes :=
  if cs = 0 then [] else chunksOfAux l.length cs l

/-- The rolling sender hash after feeding each chunk in order. -/
def sender_hash (chunks : List Bytes) : Sha256 :=
  chunks.foldl (fun h c => h.inputBytes c) Sha256.new

/-- The progress text `"Progress: <n>%"` passed to `on_progress`. -/
def progress_str (n : Nat) : Bytes :=
  strBytes "Progress: " ++ int_to_bytes n ++ strBytes "%"

/-- The sequence of `on_progress` payloads of one `send_binary_blob` call
with negotiated chunk size `cs`: `"Progress: 0%"` before streaming, then
after the chunk of index `i` the value
`100 * (i * cs + chunk.length) / data.length` (integer division), exactly as
computed on line 175 of `src/sender.rs`. -/
def progressReports (cs : Nat) (data : Bytes) : List Bytes :=
  progress_str 0 ::
    (chunksOf cs data).enum.map
      (fun ic => progress_str (100 * (ic.1 * cs + ic.2.length) / data.length))

/-! ### End-to-end composition

One `send_binary_blob` call against one fresh receiver, with the routed
transport delivering messages in order in both directions.  Each receiver
dispatch corresponds to one iteration of `BlobReceiver::run`: the TTL prune
runs first, then one message is handled.  Wall-clock time is held at the
fixed instant `now` (all modelled operations are instantaneous), sends on
both sockets succeed, and the sender never reaches its overall deadline; a
run that would block forever or panic inside the receiver yields `none`. -/

/-- The frames of a ROUTER-side message as seen by the connected DEALER: the
routing identity frame is stripped on delivery. -/
def dealerView (frames : List Bytes) : List Bytes := frames.drop 1

/-- The multipart messages pushed onto the socket among a list of receiver
events. -/
def sentMsgs (evs : List Event) : List (List Bytes) :=
  evs.filterMap (fun e =>
    match e with
    | .sent frames => some frames
    | _ => none)

/-- The streaming phase: for each chunk, the sender reads one message from
its inbox and requires a TOKEN (`handle_token`), sends the CHUNK which the
receiver handles (after its TTL prune), and the TOKEN replenished by the
receiver is appended to the inbox.  Returns the sender outcome, the receiver
state, the receiver events, and the final inbox. -/
def streamPhase (now : Nat) (sid : Bytes) :
    List Bytes → BlobReceiver → List (List Bytes) →
      Option (SenderResult Unit × BlobReceiver × List Event × List (List Bytes))
  | [], st, inbox => some (.ok (), st, [], inbox)
  | c :: rest, st, inbox =>
    match inbox with
    | [] => none
    | msg :: inrest =>
      match handle_token msg with
      | .panic => some (.panic, st, [], inbox)
      | .err e => some (.err e, st, [], inbox)
      | .ok () =>
        match do_chunk (prune_dead_blobs st now) now sid [c] with
        | none => none
        | some (st1, evs, _) =>
          match streamPhase now sid rest st1 (inrest ++ (sentMsgs evs).map dealerView) with
          | none => none
          | some (r, st2, evs2, inbox2) => some (r, st2, evs ++ evs2, inbox2)

/-- One complete transfer of `data` through a fresh receiver configured with
chunk size `cs`, by a sender identified on the ROUTER as `sid`, following the
control flow of `send_binary_blob`: PING/PONG handshake, START negotiation
(failing with the NOGO error on a NOGO reply, parsing the GOGO chunk size
with `bytes_to_int`, and panicking on `chunks(0)` when the negotiated size is
zero), the token-gated streaming loop, END carrying the sender digest, and
the final reply loop.  The result carries the sender outcome (`ok` means the
sender concluded with OK and returned, in non-consistent mode, the empty byte
vector), the final receiver state, and all receiver events in order. -/
def runTransfer (on_ready : Nat → Bool) (cs now : Nat) (sid bid data : Bytes) :
    Option (SenderResult Bytes × BlobReceiver × List Event) :=
  let st0 : BlobReceiver := { chunk_size := cs, blobs := [] }
  let p1 := do_ping (prune_dead_blobs st0 now) sid
  match (sentMsgs p1.2).head? with
  | none => none
  | some reply1 =>
    match handle_ping_response (dealerView reply1) with
    | .panic => some (.panic, p1.1, p1.2)
    | .err e => some (.err e, p1.1, p1.2)
    | .ok () =>
      let p2 := do_start (prune_dead_blobs p1.1 now) now on_ready sid bid
        (int_to_bytes data.length)
      let evs12 := p1.2 ++ p2.2
      match (sentMsgs p2.2).head? with
      | none => none
      | some reply2 =>
        match handle_start_response (dealerView reply2) with
        | .panic => some (.panic, p2.1, evs12)
        | .err e => some (.err e, p2.1, evs12)
        | .ok cs_bytes =>
          match bytes_to_int cs_bytes with
          | .error e => some (.err e, p2.1, evs12)
          | .ok chunk_size =>
            if chunk_size = 0 then some (.panic, p2.1, evs12)
            else
              let inbox0 := ((sentMsgs p2.2).drop 1).map dealerView
              match streamPhase now sid (chunksOf chunk_size data) p2.1 inbox0 with
              | none => none
              | some (.panic, st3, evs3, _) => some (.panic, st3, evs12 ++ evs3)
              | some (.err e, st3, evs3, _) => some (.err e, st3, evs12 ++ evs3)
              | some (.ok (), st3, evs3, inbox3) =>
                let hex := (sender_hash (chunksOf chunk_size data)).result_hex
                let p4 := do_end (prune_dead_blobs st3 now) sid (some hex)
                let evs := evs12 ++ evs3 ++ p4.2
                match await_ok (inbox3 ++ (sentMsgs p4.2).map dealerView) with
                | none => none
                | some .panic => some (.panic, p4.1, evs)
                | some (.err e) => some (.err e, p4.1, evs)
                | some (.ok ()) => some (.ok [], p4.1, evs)

/-! ### Helper lemmas: decimal parsing and printing -/

lemma validUtf8Aux_ascii : ∀ (fuel : Nat) (l : Bytes), l.length ≤ fuel →
    (∀ b ∈ l, b < 128) → validUtf8Aux fuel l = true := by
  intro fuel
  induction fuel with
  | zero =>
    intro l hl _
    have : l = [] := List.eq_nil_of_length_eq_zero (Nat.le_zero.mp hl)
    subst this
    rfl
  | succ f ih =>
    intro l hl hb
    cases l with
    | nil => rfl
    | cons b rest =>
      have hb0 : b < 128 := hb b (List.mem_cons_self ..)
      have : validUtf8Aux (f + 1) (b :: rest) = validUtf8Aux f rest := by
        simp only [validUtf8Aux]
        rw [if_pos hb0]
      rw [this]
      exact ih rest (by simp at hl; omega)
        (fun x hx => hb x (List.mem_cons_of_mem _ hx))

lemma natToDecAux_digits : ∀ (fuel n : Nat), ∀ b ∈ natToDecAux fuel n,
    48 ≤ b ∧ b ≤ 57 := by
  intro fuel
  induction fuel with
  | zero => intro n b hb; simp [natToDecAux] at hb
  | succ f ih =>
    intro n b hb
    by_cases h0 : n = 0
    · simp [natToDecAux, h0] at hb
    · simp only [natToDecAux, if_neg h0, List.mem_append, List.mem_singleton] at hb
      rcases hb with hb | hb
      · exact ih _ b hb
      · subst hb
        have : n % 10 < 10 := Nat.mod_lt _ (by omega)
        omega

lemma int_to_bytes_digits (n : Nat) : ∀ b ∈ int_to_bytes n, 48 ≤ b ∧ b ≤ 57 := by
  intro b hb
  by_cases h0 : n = 0
  · simp [int_to_bytes, h0] at hb
    omega
  · simp only [int_to_bytes, if_neg h0] at hb
    exact natToDecAux_digits n n b hb

lemma validUtf8_int_to_bytes (n : Nat) : validUtf8 (int_to_bytes n) = true := by
  exact validUtf8Aux_ascii _ _ le_rfl
    (fun b hb => by have := int_to_bytes_digits n b hb; omega)

lemma parseDigitsAcc_append (xs ys : Bytes) : ∀ acc,
    parseDigitsAcc (xs ++ ys) acc =
      (parseDigitsAcc xs acc).bind (fun a => parseDigitsAcc ys a) := by
  induction xs with
  | nil => intro acc; rfl
  | cons b rest ih =>
    intro acc
    simp only [List.cons_append, parseDigitsAcc]
    by_cases hd : 48 ≤ b ∧ b ≤ 57
    · rw [if_pos hd, if_pos hd]
      by_cases hov : acc * 10 + (b - 48) ≤ USIZE_MAX
      · rw [if_pos hov, if_pos hov]; exact ih _
      · rw [if_neg hov, if_neg hov]; rfl
    · rw [if_neg hd, if_neg hd]; rfl

lemma natToDecAux_parse : ∀ (n : Nat), n ≤ USIZE_MAX → ∀ (fuel : Nat), n ≤ fuel →
    parseDigitsAcc (natToDecAux fuel n) 0 = some n := by
  intro n
  induction n using Nat.strong_induction_on with
  | _ n ih =>
    intro hmax fuel hfuel
    by_cases h0 : n = 0
    · subst h0
      cases fuel <;> rfl
    · obtain ⟨f, rfl⟩ : ∃ f, fuel = f + 1 := ⟨fuel - 1, by omega⟩
      simp only [natToDecAux, if_neg h0]
      rw [parseDigitsAcc_append]
      have hdiv_lt : n / 10 < n := Nat.div_lt_self (by omega) (by omega)
      rw [ih (n / 10) hdiv_lt (by omega) f (by omega)]
      have hmod : n % 10 < 10 := Nat.mod_lt _ (by omega)
      have hdm := Nat.div_add_mod n 10
      simp only [Option.some_bind, parseDigitsAcc]
      rw [if_pos (by omega : 48 ≤ n % 10 + 48 ∧ n % 10 + 48 ≤ 57)]
      rw [if_pos (by omega : n / 10 * 10 + (n % 10 + 48 - 48) ≤ USIZE_MAX)]
      have : n / 10 * 10 + (n % 10 + 48 - 48) = n := by omega
      rw [this]

lemma parseUsize_int_to_bytes (n : Nat) (h : n ≤ USIZE_MAX) :
    parseUsize (int_to_bytes n) = some n := by
  have hparse : parseDigitsAcc (int_to_bytes n) 0 = some n := by
    by_cases h0 : n = 0
    · subst h0; rfl
    · simp only [int_to_bytes, if_neg h0]
      exact natToDecAux_parse n h n le_rfl
  have hne : int_to_bytes n ≠ [] := by
    by_cases h0 : n = 0
    · subst h0; simp [int_to_bytes]
    · simp only [int_to_bytes, if_neg h0]
      obtain ⟨f, rfl⟩ : ∃ f, n = f + 1 := ⟨n - 1, by omega⟩
      simp [natToDecAux, h0]
  cases hl : int_to_bytes n with
  | nil => exact absurd hl hne
  | cons b rest =>
    have hb : 48 ≤ b ∧ b ≤ 57 := int_to_bytes_digits n b (by rw [hl]; exact List.mem_cons_self ..)
    simp only [parseUsize]
    rw [if_neg (by omega : ¬ b = 43)]
    rw [← hl, hparse]

lemma bytes_to_int_int_to_bytes (n : Nat) (h : n ≤ USIZE_MAX) :
    bytes_to_int (int_to_bytes n) = .ok n := by
  simp only [bytes_to_int, validUtf8_int_to_bytes, if_true, parseUsize_int_to_bytes n h]

/-! ### Helper lemmas: the blob table -/

lemma tlookup_tinsert_self (k : Bytes) (v : Blob) :
    ∀ t : BlobTable, tlookup k (tinsert k v t) = some v := by
  intro t
  induction t with
  | nil => simp [tinsert, tlookup]
  | cons kv rest ih =>
    obtain ⟨k1, v1⟩ := kv
    by_cases hk : k1 = k
    · subst hk; simp [tinsert, tlookup]
    · simp [tinsert, tlookup, hk, ih]

lemma tlookup_tinsert_ne (k1 k : Bytes) (v : Blob) (hk : k1 ≠ k) :
    ∀ t : BlobTable, tlookup k1 (tinsert k v t) = tlookup k1 t := by
  intro t
  induction t with
  | nil =>
    simp only [tinsert, tlookup]
    rw [if_neg (fun h => hk h.symm)]
  | cons kv rest ih =>
    obtain ⟨k2, v2⟩ := kv
    by_cases h2 : k2 = k
    · subst h2
      simp only [tinsert, if_pos rfl, tlookup]
      rw [if_neg (fun h => hk h.symm), if_neg (fun h => hk h.symm)]
    · simp only [tinsert, if_neg h2, tlookup]
      by_cases h1 : k2 = k1
      · simp [h1]
      · rw [if_neg h1, if_neg h1, ih]

lemma tlookup_tremove_self (k : Bytes) :
    ∀ t : BlobTable, tlookup k (tremove k t) = none := by
  intro t
  induction t with
  | nil => rfl
  | cons kv rest ih =>
    obtain ⟨k1, v1⟩ := kv
    by_cases hk : k1 = k
    · simp [tremove, hk, ih]
    · simp [tremove, tlookup, hk, ih]

/-! ### Helper lemmas: chunk writes and the blob hash invariant -/

/-- The invariant that actually holds of every receiver-side blob: the hash
has been fed exactly the first `index` bytes of the pre-allocated array (the
filled region), and `index` never exceeds the array length. -/
def BlobHashInv (b : Blob) : Prop :=
  b.hash.fed = b.array.take b.index ∧ b.index ≤ b.array.length

lemma blob_new_inv (id : Bytes) (n now : Nat) : BlobHashInv (Blob.new id n now) := by
  constructor
  · simp [Blob.new, Sha256.new]
  · simp [Blob.new]

lemma writeBytes_length (arr data : Bytes) (i : Nat) (h : i + data.length ≤ arr.length) :
    (writeBytes arr i data).length = arr.length := by
  simp only [writeBytes, List.length_append, List.length_take, List.length_drop]
  omega

lemma writeBytes_take (arr data : Bytes) (i : Nat) (h : i ≤ arr.length) :
    (writeBytes arr i data).take i = arr.take i := by
  simp only [writeBytes]
  rw [List.append_assoc]
  exact List.take_left' (by simp [List.length_take]; omega)

/-- Characterization of `do_chunk` when the sender has no table entry: the
state, the payload and the whole pending queue are untouched. -/
lemma do_chunk_absent (st : BlobReceiver) (now : Nat) (sid : Bytes)
    (pending : List Bytes) (h : tlookup sid st.blobs = none) :
    do_chunk st now sid pending = some (st, [], pending) := by
  rw [do_chunk, h]

/-- Characterization of `do_chunk` when the blob exists and the chunk window
fits: one payload frame is consumed, the blob is updated, one TOKEN is
replenished. -/
lemma do_chunk_present (st : BlobReceiver) (now : Nat) (sid : Bytes)
    (payload : Bytes) (rest : List Bytes) (blob : Blob)
    (h : tlookup sid st.blobs = some blob)
    (hg : blob.index + st.chunk_size ≤ blob.array.length) :
    do_chunk st now sid (payload :: rest) =
      some ({ st with
              blobs := tinsert sid
                (chunkUpdatedBlob blob st.chunk_size now payload) st.blobs },
            [.info "Received chunk data.", .info "Appended chunk to blob."] ++
              request_chunks sid 1,
            rest) := by
  rw [do_chunk, h]
  simp only [if_pos hg]

/-- Characterization of `do_chunk` when the blob exists but the chunk window
does not fit: the slice borrow in the source panics. -/
lemma do_chunk_oob (st : BlobReceiver) (now : Nat) (sid : Bytes)
    (pending : List Bytes) (blob : Blob)
    (h : tlookup sid st.blobs = some blob)
    (hg : ¬ blob.index + st.chunk_size ≤ blob.array.length) :
    do_chunk st now sid pending = none := by
  rw [do_chunk, h]
  simp only [if_neg hg]

/-- Characterization of `do_chunk` when the blob exists, the window fits,
but no payload frame is available. -/
lemma do_chunk_no_payload (st : BlobReceiver) (now : Nat) (sid : Bytes) (blob : Blob)
    (h : tlookup sid st.blobs = some blob)
    (hg : blob.index + st.chunk_size ≤ blob.array.length) :
    do_chunk st now sid [] = none := by
  rw [do_chunk, h]
  simp only [if_pos hg]

/-- Core preservation step of `do_chunk`: the updated blob keeps the hash
invariant and its array length. -/
lemma chunkUpdatedBlob_inv (blob : Blob) (cs now : Nat) (payload : Bytes)
    (hinv : BlobHashInv blob) (hb : blob.index + cs ≤ blob.array.length) :
    BlobHashInv (chunkUpdatedBlob blob cs now payload) ∧
    (chunkUpdatedBlob blob cs now payload).array.length = blob.array.length := by
  have hw : (payload.take cs).length ≤ cs := by simp [List.length_take]
  have hlen : (writeBytes blob.array blob.index (payload.take cs)).length
      = blob.array.length :=
    writeBytes_length _ _ _ (by omega)
  refine ⟨⟨?_, ?_⟩, hlen⟩
  · show blob.hash.fed ++
        ((writeBytes blob.array blob.index (payload.take cs)).drop blob.index).take cs =
      (writeBytes blob.array blob.index (payload.take cs)).take (blob.index + cs)
    rw [hinv.1, List.take_add, writeBytes_take _ _ _ (by omega)]
  · show blob.index + cs ≤ (writeBytes blob.array blob.index (payload.take cs)).length
    rw [hlen]
    omega

/-- Table-level preservation: if every blob in the table satisfies the hash
invariant, so does every blob after a successful `do_chunk`. -/
lemma do_chunk_table_inv (st : BlobReceiver) (now : Nat) (sid : Bytes)
    (pending : List Bytes) (st1 : BlobReceiver) (evs : List Event) (p1 : List Bytes)
    (hall : ∀ k b, tlookup k st.blobs = some b → BlobHashInv b)
    (hrun : do_chunk st now sid pending = some (st1, evs, p1)) :
    ∀ k b, tlookup k st1.blobs = some b → BlobHashInv b := by
  intro k b hkb
  rcases hlk : tlookup sid st.blobs with _ | blob
  · rw [do_chunk_absent st now sid pending hlk] at hrun
    simp only [Option.some_inj, Prod.mk.injEq] at hrun
    obtain ⟨rfl, -, -⟩ := hrun
    exact hall k b hkb
  · by_cases hguard : blob.index + st.chunk_size ≤ blob.array.length
    · cases pending with
      | nil => exact absurd (do_chunk_no_payload st now sid blob hlk hguard ▸ hrun) (by simp)
      | cons payload rest =>
        rw [do_chunk_present st now sid payload rest blob hlk hguard] at hrun
        simp only [Option.some_inj, Prod.mk.injEq] at hrun
        obtain ⟨hst, -, -⟩ := hrun
        have hst1 : st1.blobs =
            tinsert sid (chunkUpdatedBlob blob st.chunk_size now payload) st.blobs := by
          rw [← hst]
        by_cases hk : k = sid
        · subst hk
          rw [hst1, tlookup_tinsert_self] at hkb
          have := chunkUpdatedBlob_inv blob st.chunk_size now payload
            (hall k blob hlk) hguard
          rw [← Option.some_inj.mp hkb]
          exact this.1
        · rw [hst1, tlookup_tinsert_ne k sid _ hk] at hkb
          exact hall k b hkb
    · exact absurd (do_chunk_oob st now sid pending blob hlk hguard ▸ hrun) (by simp)

/-! ### Helper lemmas: chunking -/

lemma chunksOfAux_congr (cs : Nat) (hcs : 0 < cs) : ∀ (f1 f2 : Nat) (l : Bytes),
    l.length ≤ f1 → l.length ≤ f2 → chunksOfAux f1 cs l = chunksOfAux f2 cs l := by
  intro f1
  induction f1 with
  | zero =>
    intro f2 l h1 _
    have : l = [] := List.eq_nil_of_length_eq_zero (Nat.le_zero.mp h1)
    subst this
    cases f2 <;> rfl
  | succ f ih =>
    intro f2 l h1 h2
    cases l with
    | nil => cases f2 <;> rfl
    | cons b rest =>
      obtain ⟨g, rfl⟩ : ∃ g, f2 = g + 1 := ⟨f2 - 1, by simp at h2; omega⟩
      show (b :: rest).take cs :: chunksOfAux f cs ((b :: rest).drop cs) =
        (b :: rest).take cs :: chunksOfAux g cs ((b :: rest).drop cs)
      rw [ih g ((b :: rest).drop cs) (by simp at h1 ⊢; omega) (by simp at h2 ⊢; omega)]

lemma chunksOf_nil (cs : Nat) : chunksOf cs [] = [] := by
  by_cases h : cs = 0 <;> simp [chunksOf, h, chunksOfAux]

lemma chunksOf_ne_nil (cs : Nat) (l : Bytes) (hcs : 0 < cs) (hl : l ≠ []) :
    chunksOf cs l = l.take cs :: chunksOf cs (l.drop cs) := by
  obtain ⟨b, rest, rfl⟩ : ∃ b rest, l = b :: rest := by
    cases l with
    | nil => exact absurd rfl hl
    | cons b rest => exact ⟨b, rest, rfl⟩
  simp only [chunksOf, if_neg (by omega : ¬ cs = 0)]
  show (b :: rest).take cs :: chunksOfAux rest.length cs ((b :: rest).drop cs) = _
  rw [chunksOfAux_congr cs hcs rest.length ((b :: rest).drop cs).length
    ((b :: rest).drop cs) (by simp; omega) le_rfl]

lemma chunksOf_flatten (cs : Nat) (hcs : 0 < cs) : ∀ (l : Bytes),
    (chunksOf cs l).flatten = l := by
  have key : ∀ (n : Nat) (l : Bytes), l.length ≤ n → (chunksOf cs l).flatten = l := by
    intro n
    induction n with
    | zero =>
      intro l h
      have : l = [] := List.eq_nil_of_length_eq_zero (Nat.le_zero.mp h)
      subst this
      rw [chunksOf_nil]
      rfl
    | succ m ih =>
      intro l h
      by_cases hl : l = []
      · subst hl
        rw [chunksOf_nil]
        rfl
      · rw [chunksOf_ne_nil cs l hcs hl]
        have hpos : 0 < l.length := List.length_pos.mpr hl
        show l.take cs ++ (chunksOf cs (l.drop cs)).flatten = l
        rw [ih (l.drop cs) (by simp; omega), List.take_append_drop]
  intro l
  exact key l.length l le_rfl

lemma chunksOf_get? (cs : Nat) (hcs : 0 < cs) : ∀ (l : Bytes) (i : Nat),
    (chunksOf cs l).get? i =
      if i * cs < l.length then some ((l.drop (i * cs)).take cs) else none := by
  have key : ∀ (n : Nat) (l : Bytes), l.length ≤ n → ∀ (i : Nat),
      (chunksOf cs l).get? i =
        if i * cs < l.length then some ((l.drop (i * cs)).take cs) else none := by
    intro n
    induction n with
    | zero =>
      intro l h i
      have : l = [] := List.eq_nil_of_length_eq_zero (Nat.le_zero.mp h)
      subst this
      simp [chunksOf_nil]
    | succ m ih =>
      intro l h i
      by_cases hl : l = []
      · subst hl
        simp [chunksOf_nil]
      · rw [chunksOf_ne_nil cs l hcs hl]
        have hpos : 0 < l.length := List.length_pos.mpr hl
        cases i with
        | zero => simp [hpos]
        | succ j =>
          show (chunksOf cs (l.drop cs)).get? j = _
          rw [ih (l.drop cs) (by simp; omega) j]
          simp only [List.length_drop]
          have hmul : (j + 1) * cs = j * cs + cs := by ring
          by_cases hin : j * cs < l.length - cs
          · rw [if_pos hin, if_pos (by omega)]
            rw [List.drop_drop]
            congr 3
            ring
          · rw [if_neg hin, if_neg (by omega)]
  intro l
  exact key l.length l le_rfl

lemma chunksOf_length_bounds (cs : Nat) (hcs : 0 < cs) : ∀ (l : Bytes), l ≠ [] →
    l.length ≤ (chunksOf cs l).length * cs ∧
      ((chunksOf cs l).length - 1) * cs < l.length := by
  have key : ∀ (n : Nat) (l : Bytes), l.length ≤ n → l ≠ [] →
      l.length ≤ (chunksOf cs l).length * cs ∧
        ((chunksOf cs l).length - 1) * cs < l.length := by
    intro n
    induction n with
    | zero =>
      intro l h hl
      exact absurd (List.eq_nil_of_length_eq_zero (Nat.le_zero.mp h)) hl
    | succ m ih =>
      intro l h hl
      have hpos : 0 < l.length := List.length_pos.mpr hl
      rw [chunksOf_ne_nil cs l hcs hl]
      by_cases hrest : l.drop cs = []
      · rw [hrest, chunksOf_nil]
        simp only [List.length_cons, List.length_nil]
        have : l.length - cs = 0 := by
          have := congrArg List.length hrest
          simpa using this
        constructor <;> omega
      · have := ih (l.drop cs) (by simp; omega) hrest
        simp only [List.length_drop] at this
        simp only [List.length_cons]
        have hk : 0 < (chunksOf cs (l.drop cs)).length := by
          rw [chunksOf_ne_nil cs _ hcs hrest]
          simp
        constructor
        · have h1 := this.1
          have hmul : ((chunksOf cs (l.drop cs)).length + 1) * cs =
              (chunksOf cs (l.drop cs)).length * cs + cs := by ring
          omega
        · have h2 := this.2
          rcases Nat.exists_eq_add_of_lt hk with ⟨m1, hm⟩
          rw [hm] at h2 ⊢
          simp only [Nat.add_sub_cancel] at h2 ⊢
          have hmul : (0 + m1 + 1) * cs = (0 + m1) * cs + cs := by ring
          omega
  intro l
  exact key l.length l le_rfl

/-! ### Helper lemmas: millisecond conversion -/

lemma duration_to_ms_div (nanos : Nat) : duration_to_ms nanos = nanos / 1000000 := by
  have h9 : (1000000000 : Nat) = 1000000 * 1000 := by norm_num
  rw [duration_to_ms, h9]
  rw [Nat.mod_mul_right_div_self]
  rw [← Nat.div_div_eq_div_mul]
  omega

/-! ### Helper lemmas: the end-to-end run -/

/-- The dealer-side view of a replenishment TOKEN message. -/
def tokenMsg : List Bytes := [[], strBytes "TOKEN"]

/-- The receiver-state invariant maintained along a single-sender run: the
table holds exactly one blob, keyed by the sender, satisfying the hash-prefix
invariant, with the pre-allocated array length equal to the announced data
size and a TTL in the future. -/
def RunInv (now : Nat) (sid : Bytes) (dlen : Nat) (st : BlobReceiver) : Prop :=
  ∃ b, st.blobs = [(sid, b)] ∧ BlobHashInv b ∧ b.array.length = dlen ∧
    b.time_to_die = now + BLOB_TTL_SECONDS

lemma prune_runinv (now : Nat) (sid : Bytes) (dlen : Nat) (st : BlobReceiver)
    (h : RunInv now sid dlen st) : prune_dead_blobs st now = st := by
  obtain ⟨b, hb, -, -, httl⟩ := h
  have hfilter : st.blobs.filter (fun kv => kv.2.is_alive now) = st.blobs := by
    rw [hb]
    simp [List.filter, Blob.is_alive, httl, BLOB_TTL_SECONDS]
  simp only [prune_dead_blobs, hfilter]

lemma tinsert_single (k : Bytes) (v b : Blob) : tinsert k v [(k, b)] = [(k, v)] := by
  simp [tinsert]

lemma handle_token_tokenMsg : handle_token tokenMsg = .ok () := by rfl

lemma sender_hash_fed_aux : ∀ (chunks : List Bytes) (h0 : Sha256),
    (chunks.foldl (fun h c => h.inputBytes c) h0).fed = h0.fed ++ chunks.flatten := by
  intro chunks
  induction chunks with
  | nil => intro h0; simp
  | cons c rest ih =>
    intro h0
    show (rest.foldl (fun h c => h.inputBytes c) (h0.inputBytes c)).fed = _
    rw [ih]
    simp [Sha256.inputBytes]

lemma sender_hash_fed (cs : Nat) (hcs : 0 < cs) (data : Bytes) :
    (sender_hash (chunksOf cs data)).fed = data := by
  rw [sender_hash, sender_hash_fed_aux]
  simp [Sha256.new, chunksOf_flatten cs hcs]

lemma await_ok_skip_tokens : ∀ (l1 l2 : List (List Bytes)),
    (∀ m ∈ l1, m = tokenMsg) → await_ok (l1 ++ l2) = await_ok l2 := by
  intro l1
  induction l1 with
  | nil => intro l2 _; rfl
  | cons m rest ih =>
    intro l2 hall
    have hm : m = tokenMsg := hall m (List.mem_cons_self ..)
    subst hm
    show await_ok (tokenMsg :: (rest ++ l2)) = _
    rw [await_ok]
    rw [if_pos (by rw [tokenMsg]; simp), if_pos (by rfl)]
    exact ih l2 (fun x hx => hall x (List.mem_cons_of_mem _ hx))

/-- Characterization of `do_start` on a parseable size that `on_ready`
allows. -/
lemma do_start_ok (st : BlobReceiver) (now : Nat) (on_ready : Nat → Bool)
    (sid bid dsb : Bytes) (n : Nat)
    (h1 : bytes_to_int dsb = .ok n) (h2 : on_ready n = true) :
    do_start st now on_ready sid bid dsb =
      ({ st with blobs := tinsert sid (Blob.new bid n now) st.blobs },
       .info "Created new blob." ::
       .sent [sid, [], strBytes "GOGO", int_to_bytes st.chunk_size] ::
       request_chunks sid MAX_SIMUL_CHUNKS) := by
  rw [do_start, h1]
  simp [h2]

/-- Characterization of `do_start` on a parseable size that `on_ready`
declines: NOGO is sent and the table is untouched. -/
lemma do_start_nogo (st : BlobReceiver) (now : Nat) (on_ready : Nat → Bool)
    (sid bid dsb : Bytes) (n : Nat)
    (h1 : bytes_to_int dsb = .ok n) (h2 : on_ready n = false) :
    do_start st now on_ready sid bid dsb =
      (st, [.sent [sid, [], strBytes "NOGO", strBytes "0"],
            .info "Not ready. NOGO sent."]) := by
  rw [do_start, h1]
  simp [h2]

/-- Characterization of `do_end` on a received hash frame when the blob
exists and the digests agree: OK is sent and the blob array is delivered. -/
lemma do_end_match (st : BlobReceiver) (sid hash_bytes : Bytes) (blob : Blob)
    (h : tlookup sid st.blobs = some blob)
    (hh : hash_bytes = blob.hash.result_hex) :
    do_end st sid (some hash_bytes) =
      ({ st with blobs := tremove sid st.blobs },
       [.info "Checking hash.",
        .sent [sid, [], strBytes "OK", strBytes "Great success"],
        .info "Sent OK.", .info "Queueing completion action.",
        .complete sid blob.array]) := by
  rw [do_end, h]
  simp [hh]

/-- Characterization of `do_end` on a received hash frame when the blob
exists but the digests disagree: FAIL is sent and the blob is discarded. -/
lemma do_end_mismatch (st : BlobReceiver) (sid hash_bytes : Bytes) (blob : Blob)
    (h : tlookup sid st.blobs = some blob)
    (hh : hash_bytes ≠ blob.hash.result_hex) :
    do_end st sid (some hash_bytes) =
      (abort_transaction { st with blobs := tremove sid st.blobs } sid,
       [.info "Checking hash.", .info "Checksum wrong. Sending FAIL.",
        .sent [sid, [], strBytes "FAIL", strBytes "Hash mismatch"]]) := by
  rw [do_end, h]
  simp [hh]

/-- Characterization of `do_end` when no blob exists for the sender. -/
lemma do_end_absent (st : BlobReceiver) (sid hash_bytes : Bytes)
    (h : tlookup sid st.blobs = none) :
    do_end st sid (some hash_bytes) =
      ({ st with blobs := tremove sid st.blobs },
       [.info "END with invalid sender_id. Ignoring."]) := by
  rw [do_end, h]

/-- Specification of the streaming phase along the single-sender run: the
invariant is preserved, the chunk size never changes, the inbox only ever
holds TOKEN messages, and no completion event is emitted. -/
lemma streamPhase_spec (now : Nat) (sid : Bytes) (dlen : Nat) :
    ∀ (chunks : List Bytes) (st : BlobReceiver) (inbox : List (List Bytes))
      (r : SenderResult Unit) (st1 : BlobReceiver) (evs : List Event)
      (inbox1 : List (List Bytes)),
    streamPhase now sid chunks st inbox = some (r, st1, evs, inbox1) →
    RunInv now sid dlen st →
    (∀ m ∈ inbox, m = tokenMsg) →
    RunInv now sid dlen st1 ∧ st1.chunk_size = st.chunk_size ∧
      (∀ m ∈ inbox1, m = tokenMsg) ∧
      (∀ s a, Event.complete s a ∉ evs) := by
  intro chunks
  induction chunks with
  | nil =>
    intro st inbox r st1 evs inbox1 hrun hinv htok
    simp only [streamPhase, Option.some_inj, Prod.mk.injEq] at hrun
    obtain ⟨-, rfl, rfl, rfl⟩ := hrun
    exact ⟨hinv, rfl, htok, by simp⟩
  | cons c rest ih =>
    intro st inbox r st1 evs inbox1 hrun hinv htok
    cases inbox with
    | nil => exact absurd hrun (by simp [streamPhase])
    | cons msg inrest =>
      have hm : msg = tokenMsg := htok msg (List.mem_cons_self ..)
      subst hm
      rw [streamPhase, handle_token_tokenMsg] at hrun
      rw [prune_runinv now sid dlen st hinv] at hrun
      obtain ⟨b, hb, hbinv, hblen, httl⟩ := hinv
      have hlk : tlookup sid st.blobs = some b := by
        rw [hb]
        simp [tlookup]
      by_cases hg : b.index + st.chunk_size ≤ b.array.length
      · rw [do_chunk_present st now sid c [] b hlk hg] at hrun
        simp only [] at hrun
        set ub := chunkUpdatedBlob b st.chunk_size now c with hub
        set stU : BlobReceiver :=
          { st with blobs := tinsert sid ub st.blobs } with hstU
        have hubinv := chunkUpdatedBlob_inv b st.chunk_size now c hbinv hg
        have hinvU : RunInv now sid dlen stU := by
          refine ⟨ub, ?_, hubinv.1, by rw [hubinv.2, hblen], ?_⟩
          · show tinsert sid ub st.blobs = [(sid, ub)]
            rw [hb, tinsert_single]
          · show ub.time_to_die = now + BLOB_TTL_SECONDS
            rw [hub]
            rfl
        cases hrec : streamPhase now sid rest stU
            (inrest ++ (sentMsgs
              ([.info "Received chunk data.", .info "Appended chunk to blob."] ++
                request_chunks sid 1)).map dealerView) with
        | none =>
          rw [hrec] at hrun
          exact absurd hrun (by simp)
        | some q =>
          obtain ⟨r2, st2, evs2, inbox2⟩ := q
          rw [hrec] at hrun
          simp only [Option.some_inj, Prod.mk.injEq] at hrun
          obtain ⟨rfl, rfl, rfl, rfl⟩ := hrun
          have htokU : ∀ m ∈ inrest ++ (sentMsgs
              ([Event.info "Received chunk data.", Event.info "Appended chunk to blob."] ++
                request_chunks sid 1)).map dealerView, m = tokenMsg := by
            intro m hmem
            rcases List.mem_append.mp hmem with hmem | hmem
            · exact htok m (List.mem_cons_of_mem _ hmem)
            · have : (sentMsgs
                  ([Event.info "Received chunk data.", Event.info "Appended chunk to blob."] ++
                    request_chunks sid 1)).map dealerView = [tokenMsg] := by
                rfl
              rw [this] at hmem
              simpa using hmem
          obtain ⟨hinv2, hcs2, htok2, hnc2⟩ := ih stU _ r2 st2 evs2 inbox2 hrec hinvU htokU
          refine ⟨hinv2, by rw [hcs2], htok2, ?_⟩
          intro s a hmem
          rcases List.mem_append.mp hmem with hmem | hmem
          · have : ∀ s a, Event.complete s a ∉
                ([Event.info "Received chunk data.", Event.info "Appended chunk to blob."] ++
                  request_chunks sid 1) := by
              intro s a
              simp [request_chunks]
            exact this s a hmem
          · exact hnc2 s a hmem
      · rw [do_chunk_oob st now sid [c] b hlk hg] at hrun
        exact absurd hrun (by simp)

/-- The PING/PONG handshake of the run always succeeds, reducing the run to
the phases after it; this is a definitional unfolding. -/
lemma runTransfer_after_ping (on_ready : Nat → Bool) (cs now : Nat)
    (sid bid data : Bytes) :
    runTransfer on_ready cs now sid bid data =
      (let p2 := do_start { chunk_size := cs, blobs := [] } now on_ready sid bid
        (int_to_bytes data.length)
       let evs12 := Event.sent [sid, [], strBytes "PONG"] :: p2.2
       match (sentMsgs p2.2).head? with
       | none => none
       | some reply2 =>
         match handle_start_response (dealerView reply2) with
         | .panic => some (.panic, p2.1, evs12)
         | .err e => some (.err e, p2.1, evs12)
         | .ok cs_bytes =>
           match bytes_to_int cs_bytes with
           | .error e => some (.err e, p2.1, evs12)
           | .ok chunk_size =>
             if chunk_size = 0 then some (.panic, p2.1, evs12)
             else
               match streamPhase now sid (chunksOf chunk_size data) p2.1
                   (((sentMsgs p2.2).drop 1).map dealerView) with
               | none => none
               | some (.panic, st3, evs3, _) => some (.panic, st3, evs12 ++ evs3)
               | some (.err e, st3, evs3, _) => some (.err e, st3, evs12 ++ evs3)
               | some (.ok (), st3, evs3, inbox3) =>
                 let p4 := do_end (prune_dead_blobs st3 now) sid
                   (some ((sender_hash (chunksOf chunk_size data)).result_hex))
                 let evs := evs12 ++ evs3 ++ p4.2
                 match await_ok (inbox3 ++ (sentMsgs p4.2).map dealerView) with
                 | none => none
                 | some .panic => some (.panic, p4.1, evs)
                 | some (.err e) => some (.err e, p4.1, evs)
                 | some (.ok ()) => some (.ok [], p4.1, evs)) := rfl

/-- Central delivery lemma: when the composed run concludes with the sender
returning OK, the receiver invoked `on_complete` for this sender with exactly
the transferred data, and no other completion event was emitted. -/
lemma run_ok_delivers (on_ready : Nat → Bool) (cs now : Nat) (sid bid data : Bytes)
    (hlen : data.length ≤ 100000000) (res : Bytes) (stf : BlobReceiver)
    (evs : List Event)
    (hrun : runTransfer on_ready cs now sid bid data = some (.ok res, stf, evs)) :
    Event.complete sid data ∈ evs ∧
      ∀ s a, Event.complete s a ∈ evs → s = sid ∧ a = data := by
  have hds : bytes_to_int (int_to_bytes data.length) = .ok data.length :=
    bytes_to_int_int_to_bytes data.length (by unfold USIZE_MAX; omega)
  rw [runTransfer_after_ping] at hrun
  simp only [] at hrun
  by_cases hready : on_ready data.length = true
  · rw [do_start_ok _ now on_ready sid bid _ data.length hds hready] at hrun
    simp only [] at hrun
    have hsent : sentMsgs (Event.info "Created new blob." ::
        Event.sent [sid, [], strBytes "GOGO", int_to_bytes cs] ::
        request_chunks sid MAX_SIMUL_CHUNKS) =
        [sid, [], strBytes "GOGO", int_to_bytes cs] ::
          List.replicate 10 [sid, [], strBytes "TOKEN"] := rfl
    rw [hsent, List.head?_cons] at hrun
    simp only [] at hrun
    have hstart : handle_start_response
        (dealerView [sid, [], strBytes "GOGO", int_to_bytes cs]) =
        .ok (int_to_bytes cs) := rfl
    rw [hstart] at hrun
    simp only [] at hrun
    cases hcsv : bytes_to_int (int_to_bytes cs) with
    | error e =>
      rw [hcsv] at hrun
      exact absurd hrun (by simp)
    | ok v =>
      rw [hcsv] at hrun
      simp only [] at hrun
      by_cases hv0 : v = 0
      · rw [if_pos hv0] at hrun
        exact absurd hrun (by simp)
      · rw [if_neg hv0] at hrun
        have hvpos : 0 < v := Nat.pos_of_ne_zero hv0
        have hdrop : ((([sid, [], strBytes "GOGO", int_to_bytes cs] ::
            List.replicate 10 [sid, [], strBytes "TOKEN"]).drop 1).map dealerView) =
            List.replicate 10 tokenMsg := rfl
        rw [hdrop] at hrun
        have htins : tinsert sid (Blob.new bid data.length now) ([] : BlobTable) =
            [(sid, Blob.new bid data.length now)] := rfl
        rw [htins] at hrun
        have hRunInv : RunInv now sid data.length
            { chunk_size := cs, blobs := [(sid, Blob.new bid data.length now)] } :=
          ⟨Blob.new bid data.length now, rfl, blob_new_inv _ _ _,
            by simp [Blob.new], rfl⟩
        have htokens : ∀ m ∈ List.replicate 10 tokenMsg, m = tokenMsg :=
          fun m hm => List.eq_of_mem_replicate hm
        cases hstream : streamPhase now sid (chunksOf v data)
            { chunk_size := cs, blobs := [(sid, Blob.new bid data.length now)] }
            (List.replicate 10 tokenMsg) with
        | none =>
          rw [hstream] at hrun
          exact absurd hrun (by simp)
        | some q =>
          obtain ⟨r3, st3, evs3, inbox3⟩ := q
          rw [hstream] at hrun
          cases r3 with
          | panic => exact absurd hrun (by simp)
          | err e => exact absurd hrun (by simp)
          | ok u =>
            obtain ⟨⟩ := u
            simp only [] at hrun
            obtain ⟨hinv3, hcs3, htok3, hnc3⟩ :=
              streamPhase_spec now sid data.length (chunksOf v data) _ _ _ _ _ _
                hstream hRunInv htokens
            rw [prune_runinv now sid data.length st3 hinv3] at hrun
            obtain ⟨b3, hb3, hbinv3, hblen3, httl3⟩ := hinv3
            have hlk3 : tlookup sid st3.blobs = some b3 := by
              rw [hb3]
              simp [tlookup]
            have hhex : (sender_hash (chunksOf v data)).result_hex = data :=
              sender_hash_fed v hvpos data
            rw [hhex] at hrun
            by_cases hmatch : data = b3.hash.result_hex
            · rw [do_end_match st3 sid data b3 hlk3 hmatch] at hrun
              simp only [] at hrun
              have hsent4 : sentMsgs [Event.info "Checking hash.",
                  Event.sent [sid, [], strBytes "OK", strBytes "Great success"],
                  Event.info "Sent OK.", Event.info "Queueing completion action.",
                  Event.complete sid b3.array] =
                  [[sid, [], strBytes "OK", strBytes "Great success"]] := rfl
              rw [hsent4] at hrun
              have hawait : await_ok (inbox3 ++
                  ([[sid, [], strBytes "OK", strBytes "Great success"]].map dealerView)) =
                  some (.ok ()) := by
                have hmap : ([[sid, [], strBytes "OK", strBytes "Great success"]].map
                    dealerView) = [[[], strBytes "OK", strBytes "Great success"]] := rfl
                rw [hmap, await_ok_skip_tokens inbox3 _ htok3]
                rfl
              rw [hawait] at hrun
              simp only [Option.some_inj, Prod.mk.injEq] at hrun
              obtain ⟨-, -, hevs⟩ := hrun
              have harr : b3.array = data := by
                have hdata : data = b3.array.take b3.index := by
                  rw [hmatch]
                  exact hbinv3.1
                have hlen2 : data.length = b3.index := by
                  rw [hdata, List.length_take]
                  have := hbinv3.2
                  omega
                have hfull : b3.index = b3.array.length := by omega
                rw [hdata, hfull, List.take_length]
              have hnc12 : ∀ s a, Event.complete s a ∉
                  (Event.sent [sid, [], strBytes "PONG"] ::
                    Event.info "Created new blob." ::
                    Event.sent [sid, [], strBytes "GOGO", int_to_bytes cs] ::
                    request_chunks sid MAX_SIMUL_CHUNKS) := by
                intro s a
                simp [request_chunks, MAX_SIMUL_CHUNKS]
              constructor
              · rw [← hevs, harr]
                simp
              · intro s a hmem
                rw [← hevs] at hmem
                rcases List.mem_append.mp hmem with hmem | hmem
                · rcases List.mem_append.mp hmem with hmem | hmem
                  · exact absurd hmem (hnc12 s a)
                  · exact absurd hmem (hnc3 s a)
                · have : s = sid ∧ a = b3.array := by
                    simpa using hmem
                  exact ⟨this.1, by rw [this.2, harr]⟩
            · rw [do_end_mismatch st3 sid data b3 hlk3 hmatch] at hrun
              simp only [] at hrun
              have hsent4 : sentMsgs [Event.info "Checking hash.",
                  Event.info "Checksum wrong. Sending FAIL.",
                  Event.sent [sid, [], strBytes "FAIL", strBytes "Hash mismatch"]] =
                  [[sid, [], strBytes "FAIL", strBytes "Hash mismatch"]] := rfl
              rw [hsent4] at hrun
              have hawait : await_ok (inbox3 ++
                  ([[sid, [], strBytes "FAIL", strBytes "Hash mismatch"]].map dealerView)) =
                  some (.err (XactError.new .INVALID_RESPONSE "Invalid end response")) := by
                have hmap : ([[sid, [], strBytes "FAIL", strBytes "Hash mismatch"]].map
                    dealerView) = [[[], strBytes "FAIL", strBytes "Hash mismatch"]] := rfl
                rw [hmap, await_ok_skip_tokens inbox3 _ htok3]
                rfl
              rw [hawait] at hrun
              exact absurd hrun (by simp)
  · rw [do_start_nogo _ now on_ready sid bid _ data.length hds
      (Bool.not_eq_true _ ▸ hready)] at hrun
    simp only [] at hrun
    have hsent : sentMsgs [Event.sent [sid, [], strBytes "NOGO", strBytes "0"],
        Event.info "Not ready. NOGO sent."] =
        [[sid, [], strBytes "NOGO", strBytes "0"]] := rfl
    rw [hsent, List.head?_cons] at hrun
    simp only [] at hrun
    have hng : handle_start_response
        (dealerView [sid, [], strBytes "NOGO", strBytes "0"]) =
        .err (XactError.new .NOGO "Endpoint was not ready.") := rfl
    rw [hng] at hrun
    exact absurd hrun (by simp)

/-! ### Claim theorems -/

/-- C10: for every unsigned integer within the `usize` range,
`bytes_to_int (int_to_bytes n)` returns `Ok n`; and `bytes_to_int` never
panics -- it is total, and every failure is an `INVALID_RESPONSE` error
value: one for byte strings that are not valid UTF-8, one for strings that do
not parse as a decimal unsigned integer, and no error of any other kind is
ever produced. -/
theorem bytes_int_roundtrip_and_error_kind :
    (∀ n : Nat, n ≤ USIZE_MAX → bytes_to_int (int_to_bytes n) = .ok n) ∧
    (∀ bs : Bytes, validUtf8 bs = false →
      bytes_to_int bs =
        .error (XactError.new .INVALID_RESPONSE "Unable to parse bytes as utf-8")) ∧
    (∀ bs : Bytes, validUtf8 bs = true → parseUsize bs = none →
      bytes_to_int bs =
        .error (XactError.new .INVALID_RESPONSE "Unable to parse string as integer")) ∧
    (∀ (bs : Bytes) (e : XactError), bytes_to_int bs = .error e →
      e.kind = ErrKind.INVALID_RESPONSE) := by
  refine ⟨bytes_to_int_int_to_bytes, ?_, ?_, ?_⟩
  · intro bs h
    simp [bytes_to_int, h]
  · intro bs h1 h2
    simp [bytes_to_int, h1, h2]
  · intro bs e he
    by_cases h1 : validUtf8 bs
    · cases h2 : parseUsize bs with
      | none =>
        rw [bytes_to_int, if_pos h1, h2] at he
        simp only [Except.error.injEq] at he
        rw [← he]
        rfl
      | some n =>
        rw [bytes_to_int, if_pos h1, h2] at he
        exact absurd he (by simp)
    · rw [bytes_to_int, if_neg h1] at he
      simp only [Except.error.injEq] at he
      rw [← he]
      rfl

/-- Witness for C10 at a concrete input, via the theorem. -/
theorem bytes_int_roundtrip_and_error_kind_witness :
    bytes_to_int (int_to_bytes 1070) = .ok 1070 :=
  bytes_int_roundtrip_and_error_kind.1 1070 (by decide)

/-- C2 counterexample: a freshly created `Blob` refutes the claim that the
hash state has been fed exactly the bytes currently held in the array --
`Blob::new` pre-allocates the array as `vec![0; array_size]`, so a fresh blob
for a one-byte transfer holds the byte `0` while its hash has been fed
nothing. -/
theorem fresh_blob_hash_ne_array :
    (Blob.new [7] 1 0).hash.fed ≠ (Blob.new [7] 1 0).array := by
  decide

/-- C2, amended: the hash state of every receiver-side blob has been fed
exactly the first `index` bytes of its array (the filled region), in order;
this holds for a freshly created blob and is preserved by every successful
`do_chunk`.  The remaining `array.length - index` bytes are the zero
pre-fill, which the hash has not been fed. -/
theorem blob_hash_prefix_invariant :
    (∀ (id : Bytes) (n t : Nat), BlobHashInv (Blob.new id n t)) ∧
    (∀ (st : BlobReceiver) (now : Nat) (sid : Bytes) (pending : List Bytes)
       (st1 : BlobReceiver) (evs : List Event) (p1 : List Bytes),
      (∀ k b, tlookup k st.blobs = some b → BlobHashInv b) →
      do_chunk st now sid pending = some (st1, evs, p1) →
      ∀ k b, tlookup k st1.blobs = some b → BlobHashInv b) :=
  ⟨blob_new_inv, do_chunk_table_inv⟩

/-- Witness for C2 at a concrete chunk append, via the theorem. -/
theorem blob_hash_prefix_invariant_witness :
    BlobHashInv (chunkUpdatedBlob (Blob.new [7] 1 0) 1 0 [42]) := by
  refine blob_hash_prefix_invariant.2
    { chunk_size := 1, blobs := [([3], Blob.new [7] 1 0)] } 0 [3] [[42]]
    _ _ _ ?_ rfl [3] _ rfl
  intro k b hkb
  simp only [tlookup] at hkb
  by_cases hk : ([3] : Bytes) = k
  · rw [if_pos hk] at hkb
    rw [← Option.some_inj.mp hkb]
    exact blob_hash_prefix_invariant.1 [7] 1 0
  · rw [if_neg hk] at hkb
    exact absurd hkb (by simp)

/-- C3 counterexample: a PING reply of the right frame count but with a
second frame other than PONG trips `assert!` in `send_binary_blob` -- the
outcome is a panic, not the `INVALID_RESPONSE` error value the claim says is
returned to the caller (a panic is a distinct outcome from every returned
error). -/
theorem ping_shape_mismatch_not_error_value :
    handle_ping_response [[], strBytes "NOPE"] = SenderResult.panic ∧
      (SenderResult.panic : SenderResult Unit) ≠
        SenderResult.err (XactError.new .INVALID_RESPONSE "Invalid PING response") := by
  constructor
  · rfl
  · intro h
    exact absurd h (by simp)

/-- C3, amended: every shape-mismatched PING reply (frame count not two, or
second frame not PONG) makes `send_binary_blob` panic through a failed
`assert!` rather than return an error value. -/
theorem ping_shape_mismatch_panics (parts : List Bytes)
    (h : parts.length ≠ 2 ∨ parts.getD 1 [] ≠ strBytes "PONG") :
    handle_ping_response parts = SenderResult.panic := by
  rw [handle_ping_response]
  rcases h with h | h
  · rw [if_neg h]
  · by_cases h2 : parts.length = 2
    · rw [if_pos h2, if_neg h]
    · rw [if_neg h2]

/-- Witness for C3 at a concrete malformed reply, via the theorem. -/
theorem ping_shape_mismatch_panics_witness :
    handle_ping_response [strBytes "PONG"] = SenderResult.panic :=
  ping_shape_mismatch_panics [strBytes "PONG"] (Or.inl (by decide))

/-- C9 counterexample: a CHUNK from a sender with no table entry leaves the
payload frame on the socket queue -- `do_chunk` checks the table before
reading the payload, so the returned pending queue still holds the payload
frame, refuting the claim that the receiver reads (consumes) it before
dropping. -/
theorem chunk_unknown_sender_leaves_payload_queued :
    do_chunk { chunk_size := 10, blobs := [] } 0 [1] [[5, 6]] =
      some ({ chunk_size := 10, blobs := [] }, [], [[5, 6]]) ∧
      ([[5, 6]] : List Bytes) ≠ [] := by
  constructor
  · rfl
  · intro h
    exact absurd h (by simp)

/-- C9, amended: when a CHUNK command arrives from a sender with no blob
table entry, the receiver returns immediately without reading the payload
frame (the frame stays queued on the socket), emitting nothing and leaving
its entire state unchanged. -/
theorem chunk_unknown_sender_drops_without_reading (st : BlobReceiver) (now : Nat)
    (sid : Bytes) (pending : List Bytes) (h : tlookup sid st.blobs = none) :
    do_chunk st now sid pending = some (st, [], pending) :=
  do_chunk_absent st now sid pending h

/-- Witness for C9 at a concrete state, via the theorem. -/
theorem chunk_unknown_sender_drops_without_reading_witness :
    do_chunk { chunk_size := 3, blobs := [] } 5 [2] [[9]] =
      some ({ chunk_size := 3, blobs := [] }, [], [[9]]) :=
  chunk_unknown_sender_drops_without_reading { chunk_size := 3, blobs := [] } 5 [2]
    [[9]] rfl

/-- C4: when `on_ready` declines a parseable START, the receiver emits the
NOGO reply and returns with its state -- in particular the blob table --
completely unchanged; and a sender that finds NOGO in the second frame of a
three-part START reply fails with the dedicated NOGO error kind. -/
theorem nogo_leaves_table_and_sender_errors :
    (∀ (st : BlobReceiver) (now : Nat) (on_ready : Nat → Bool)
       (sid bid dsb : Bytes) (n : Nat),
      bytes_to_int dsb = .ok n → on_ready n = false →
      do_start st now on_ready sid bid dsb =
        (st, [.sent [sid, [], strBytes "NOGO", strBytes "0"],
              .info "Not ready. NOGO sent."])) ∧
    (∀ x y : Bytes, handle_start_response [x, strBytes "NOGO", y] =
      .err (XactError.new .NOGO "Endpoint was not ready.")) := by
  constructor
  · exact do_start_nogo
  · intro x y
    rfl

/-- Witness for C4 at a concrete declined START, via the theorem. -/
theorem nogo_leaves_table_and_sender_errors_witness :
    do_start { chunk_size := 5, blobs := [] } 0 (fun _ => false) [1] [2]
        (int_to_bytes 3) =
      ({ chunk_size := 5, blobs := [] },
       [.sent [[1], [], strBytes "NOGO", strBytes "0"],
        .info "Not ready. NOGO sent."]) ∧
    handle_start_response [[], strBytes "NOGO", [48]] =
      .err (XactError.new .NOGO "Endpoint was not ready.") :=
  ⟨nogo_leaves_table_and_sender_errors.1 { chunk_size := 5, blobs := [] } 0
      (fun _ => false) [1] [2] (int_to_bytes 3) 3
      (bytes_to_int_int_to_bytes 3 (by decide)) rfl,
   nogo_leaves_table_and_sender_errors.2 [] [48]⟩

/-- C5: an accepted, parseable START inserts a fresh blob keyed by the
sender identity, sends the GOGO reply whose frame after the routing identity
and empty delimiter pair is GOGO followed by the ASCII decimal chunk size
(the third frame as the sender sees it), and then sends exactly
`MAX_SIMUL_CHUNKS` (ten) TOKEN messages before returning to the event loop;
the fourth conjunct displays the pre-grant literally as ten TOKEN sends. -/
theorem start_admit_creates_blob_and_pregrants_tokens
    (st : BlobReceiver) (now : Nat) (on_ready : Nat → Bool) (sid bid dsb : Bytes)
    (n : Nat) (h1 : bytes_to_int dsb = .ok n) (h2 : on_ready n = true) :
    (do_start st now on_ready sid bid dsb).1.blobs =
      tinsert sid (Blob.new bid n now) st.blobs ∧
    tlookup sid (do_start st now on_ready sid bid dsb).1.blobs =
      some (Blob.new bid n now) ∧
    (do_start st now on_ready sid bid dsb).2 =
      .info "Created new blob." ::
      .sent [sid, [], strBytes "GOGO", int_to_bytes st.chunk_size] ::
      request_chunks sid MAX_SIMUL_CHUNKS ∧
    request_chunks sid MAX_SIMUL_CHUNKS =
      [.sent [sid, [], strBytes "TOKEN"], .info "Requested chunk.",
       .sent [sid, [], strBytes "TOKEN"], .info "Requested chunk.",
       .sent [sid, [], strBytes "TOKEN"], .info "Requested chunk.",
       .sent [sid, [], strBytes "TOKEN"], .info "Requested chunk.",
       .sent [sid, [], strBytes "TOKEN"], .info "Requested chunk.",
       .sent [sid, [], strBytes "TOKEN"], .info "Requested chunk.",
       .sent [sid, [], strBytes "TOKEN"], .info "Requested chunk.",
       .sent [sid, [], strBytes "TOKEN"], .info "Requested chunk.",
       .sent [sid, [], strBytes "TOKEN"], .info "Requested chunk.",
       .sent [sid, [], strBytes "TOKEN"], .info "Requested chunk."] := by
  rw [do_start_ok st now on_ready sid bid dsb n h1 h2]
  exact ⟨rfl, tlookup_tinsert_self sid (Blob.new bid n now) st.blobs, rfl, rfl⟩

/-- Witness for C5 at a concrete accepted START, via the theorem. -/
theorem start_admit_creates_blob_and_pregrants_tokens_witness :
    tlookup [1] (do_start { chunk_size := 7, blobs := [] } 0 (fun _ => true)
        [1] [2] (int_to_bytes 4)).1.blobs = some (Blob.new [2] 4 0) :=
  (start_admit_creates_blob_and_pregrants_tokens { chunk_size := 7, blobs := [] } 0
    (fun _ => true) [1] [2] (int_to_bytes 4) 4
    (bytes_to_int_int_to_bytes 4 (by decide)) rfl).2.1

/-- C6: handling an END command always leaves the table without an entry for
that sender, in every outcome -- hash-frame receive error, no entry, digest
mismatch, digest match; and after a successful OK no later CHUNK (handled
while the entry is absent) or END re-creates an entry: an absent-sender
CHUNK returns the state unchanged, and every END again leaves the entry
absent. -/
theorem end_always_removes_and_no_resurrection :
    (∀ (st : BlobReceiver) (sid : Bytes) (h : Option Bytes),
      tlookup sid (do_end st sid h).1.blobs = none) ∧
    (∀ (st : BlobReceiver) (now : Nat) (sid : Bytes) (pending : List Bytes),
      tlookup sid st.blobs = none →
      do_chunk st now sid pending = some (st, [], pending)) := by
  constructor
  · intro st sid h
    cases h with
    | none => exact tlookup_tremove_self sid st.blobs
    | some hb =>
      cases hlk : tlookup sid st.blobs with
      | none =>
        rw [do_end_absent st sid hb hlk]
        exact tlookup_tremove_self sid st.blobs
      | some blob =>
        by_cases hm : hb = blob.hash.result_hex
        · rw [do_end_match st sid hb blob hlk hm]
          exact tlookup_tremove_self sid st.blobs
        · rw [do_end_mismatch st sid hb blob hlk hm]
          exact tlookup_tremove_self sid (tremove sid st.blobs)
  · intro st now sid pending h
    exact do_chunk_absent st now sid pending h

/-- Witness for C6 at a concrete END and a concrete absent-sender CHUNK, via
the theorem. -/
theorem end_always_removes_and_no_resurrection_witness :
    tlookup [1] (do_end { chunk_size := 2, blobs := [] } [1] (some [3])).1.blobs =
        none ∧
      do_chunk { chunk_size := 2, blobs := [] } 0 [1] [[4]] =
        some ({ chunk_size := 2, blobs := [] }, [], [[4]]) :=
  ⟨end_always_removes_and_no_resurrection.1 { chunk_size := 2, blobs := [] } [1]
      (some [3]),
   end_always_removes_and_no_resurrection.2 { chunk_size := 2, blobs := [] } 0 [1]
      [[4]] rfl⟩

lemma min_div_right (a b c : Nat) : min a b / c = min (a / c) (b / c) := by
  rcases le_total a b with h | h
  · rw [min_eq_left h, min_eq_left (Nat.div_le_div_right h)]
  · rw [min_eq_right h, min_eq_right (Nat.div_le_div_right h)]

/-- C7: before the deadline, the wait bound handed to `zmq::poll` (in
milliseconds) is the lesser of the optional timeout and the time remaining
until the deadline, and at the duration level it is exactly that minimum
(the remaining time alone when no timeout is given); once the deadline has
passed the bound is zero for every timeout; and both `send_multipart` and
`recv_multipart` fail with the EBUSY error whenever the poll count is
zero. -/
theorem poll_bound_and_busy_errors :
    (∀ (t : TimedZMQTransaction) (d now : Nat), now < t.time_to_die →
      get_remaining_ms t (some d) now =
        min (duration_to_ms d) (duration_to_ms (t.time_to_die - now)) ∧
      get_remaining_duration t (some d) now = min d (t.time_to_die - now)) ∧
    (∀ (t : TimedZMQTransaction) (now : Nat), now < t.time_to_die →
      get_remaining_duration t none now = t.time_to_die - now) ∧
    (∀ (t : TimedZMQTransaction) (timeout : Option Nat) (now : Nat),
      t.time_to_die ≤ now → get_remaining_ms t timeout now = 0) ∧
    (∀ parts : List Bytes, send_multipart parts 0 = .error .EBUSY) ∧
    (∀ queued : List Bytes, recv_multipart queued 0 = .error .EBUSY) := by
  refine ⟨?_, ?_, ?_, fun parts => rfl, fun queued => rfl⟩
  · intro t d now h
    have hdur : get_remaining_duration t (some d) now = min d (t.time_to_die - now) := by
      simp only [get_remaining_duration]
      rw [if_neg (by omega)]
    refine ⟨?_, hdur⟩
    rw [get_remaining_ms, hdur, duration_to_ms_div, duration_to_ms_div,
      duration_to_ms_div, min_div_right]
  · intro t now h
    simp only [get_remaining_duration]
    rw [if_neg (by omega)]
  · intro t timeout now h
    rw [get_remaining_ms]
    simp only [get_remaining_duration]
    rw [if_pos h]
    rfl

/-- Witness for C7 at concrete instants, via the theorem. -/
theorem poll_bound_and_busy_errors_witness :
    get_remaining_ms { time_to_die := 5000000000 } (some 2000000000) 1000000000 =
        min (duration_to_ms 2000000000) (duration_to_ms 4000000000) ∧
      get_remaining_ms { time_to_die := 3 } (some 9) 7 = 0 :=
  ⟨(poll_bound_and_busy_errors.1 { time_to_die := 5000000000 } 2000000000
      1000000000 (by decide)).1,
   poll_bound_and_busy_errors.2.2.1 { time_to_die := 3 } (some 9) 7 (by decide)⟩

/-- C8: for nonempty data the report sequence starts with `"Progress: 0%"`;
the report after the chunk of index `i` (position `i + 1` in the sequence)
carries `100 * bytes_sent / total` rounded down, where the bytes sent
through chunk `i` equal `min ((i + 1) * chunk_size) total` because every
earlier chunk is full; and the report after the final chunk is exactly
`"Progress: 100%"`. -/
theorem progress_reports_spec (cs : Nat) (data : Bytes) (hcs : 0 < cs)
    (hne : data ≠ []) :
    (progressReports cs data).head? = some (progress_str 0) ∧
    (∀ i : Nat, (progressReports cs data).get? (i + 1) =
      if i * cs < data.length then
        some (progress_str (100 * min ((i + 1) * cs) data.length / data.length))
      else none) ∧
    (progressReports cs data).get? ((chunksOf cs data).length) =
      some (progress_str 100) := by
  have hmid : ∀ i : Nat, (progressReports cs data).get? (i + 1) =
      if i * cs < data.length then
        some (progress_str (100 * min ((i + 1) * cs) data.length / data.length))
      else none := by
    intro i
    show ((chunksOf cs data).enum.map _).get? i = _
    rw [List.get?_map, List.enum_get?, chunksOf_get? cs hcs data i]
    by_cases hin : i * cs < data.length
    · rw [if_pos hin, if_pos hin]
      have hclen : ((data.drop (i * cs)).take cs).length =
          min cs (data.length - i * cs) := by
        simp [List.length_take, List.length_drop]
      show some (progress_str
          (100 * (i * cs + ((data.drop (i * cs)).take cs).length) / data.length)) = _
      rw [hclen]
      have hmul : (i + 1) * cs = i * cs + cs := by ring
      have harith : i * cs + min cs (data.length - i * cs) =
          min ((i + 1) * cs) data.length := by omega
      rw [harith]
    · rw [if_neg hin, if_neg hin]
      rfl
  refine ⟨rfl, hmid, ?_⟩
  have hbounds := chunksOf_length_bounds cs hcs data hne
  have hk : 0 < (chunksOf cs data).length := by
    rw [chunksOf_ne_nil cs data hcs hne]
    simp
  obtain ⟨j, hj⟩ : ∃ j, (chunksOf cs data).length = j + 1 :=
    ⟨(chunksOf cs data).length - 1, by omega⟩
  rw [hj, hmid j]
  rw [hj] at hbounds
  simp only [Nat.add_sub_cancel] at hbounds
  rw [if_pos hbounds.2]
  have hlenpos : 0 < data.length := List.length_pos.mpr hne
  have hminfull : min ((j + 1) * cs) data.length = data.length :=
    min_eq_right hbounds.1
  rw [hminfull, Nat.mul_div_cancel 100 hlenpos]

/-- Witness for C8 at a concrete transfer, via the theorem. -/
theorem progress_reports_spec_witness :
    (progressReports 3 [1, 2, 3, 4, 5, 6, 7]).get?
        ((chunksOf 3 [1, 2, 3, 4, 5, 6, 7]).length) = some (progress_str 100) :=
  (progress_reports_spec 3 [1, 2, 3, 4, 5, 6, 7] (by decide) (by decide)).2.2

/-- C1: for every byte sequence of length at most one hundred million, if
the composed transfer run (a `send_binary_blob` call against a fresh
receiver) concludes with the sender returning OK, then the receiver invoked
`on_complete` with a byte array exactly equal to the transferred data -- and
with no other completion payload.  The quantification places no divisibility
condition on the data length relative to the negotiated chunk size: when the
length is not a multiple of the chunk size the receiver-side slice borrow
panics, the run yields no OK, and the implication holds there as well. -/
theorem send_ok_delivers_exact_data (on_ready : Nat → Bool) (cs now : Nat)
    (sid bid data : Bytes) (res : Bytes) (stf : BlobReceiver) (evs : List Event)
    (hlen : data.length ≤ 100000000)
    (hrun : runTransfer on_ready cs now sid bid data = some (.ok res, stf, evs)) :
    Event.complete sid data ∈ evs ∧
      ∀ s a, Event.complete s a ∈ evs → s = sid ∧ a = data :=
  run_ok_delivers on_ready cs now sid bid data hlen res stf evs hrun

/-- Witness for C1: a concrete four-byte transfer with chunk size two runs
to completion, and the theorem yields the delivery of exactly those bytes. -/
theorem send_ok_delivers_exact_data_witness :
    Event.complete [9] [1, 2, 3, 4] ∈
      ([Event.sent [[9], [], [80, 79, 78, 71]],
        Event.info "Created new blob.",
        Event.sent [[9], [], [71, 79, 71, 79], [50]],
        Event.sent [[9], [], [84, 79, 75, 69, 78]],
        Event.info "Requested chunk.",
        Event.sent [[9], [], [84, 79, 75, 69, 78]],
        Event.info "Requested chunk.",
        Event.sent [[9], [], [84, 79, 75, 69, 78]],
        Event.info "Requested chunk.",
        Event.sent [[9], [], [84, 79, 75, 69, 78]],
        Event.info "Requested chunk.",
        Event.sent [[9], [], [84, 79, 75, 69, 78]],
        Event.info "Requested chunk.",
        Event.sent [[9], [], [84, 79, 75, 69, 78]],
        Event.info "Requested chunk.",
        Event.sent [[9], [], [84, 79, 75, 69, 78]],
        Event.info "Requested chunk.",
        Event.sent [[9], [], [84, 79, 75, 69, 78]],
        Event.info "Requested chunk.",
        Event.sent [[9], [], [84, 79, 75, 69, 78]],
        Event.info "Requested chunk.",
        Event.sent [[9], [], [84, 79, 75, 69, 78]],
        Event.info "Requested chunk.",
        Event.info "Received chunk data.",
        Event.info "Appended chunk to blob.",
        Event.sent [[9], [], [84, 79, 75, 69, 78]],
        Event.info "Requested chunk.",
        Event.info "Received chunk data.",
        Event.info "Appended chunk to blob.",
        Event.sent [[9], [], [84, 79, 75, 69, 78]],
        Event.info "Requested chunk.",
        Event.info "Checking hash.",
        Event.sent [[9], [], [79, 75],
          [71, 114, 101, 97, 116, 32, 115, 117, 99, 99, 101, 115, 115]],
        Event.info "Sent OK.",
        Event.info "Queueing completion action.",
        Event.complete [9] [1, 2, 3, 4]] : List Event) :=
  (send_ok_delivers_exact_data (fun _ => true) 2 0 [9] [1] [1, 2, 3, 4] []
    { chunk_size := 2, blobs := [] } _ (by decide) rfl).1

end Xact
